import Mathlib

/-!
Verification of the MyProxy HLS reverse proxy (src/index.js).

Strings are modelled as lists of characters (`Str`).  JavaScript builtins
(`encodeURIComponent`, `decodeURIComponent`, the WHATWG `URL` constructor,
`String.prototype.replace` with a string pattern, `split`/`join`, regex
tests) are modelled as executable Lean functions; each model carries a doc
comment stating which builtin it stands for and the scope of the model.
The repository functions (`getContentType`, `rewriteHlsUrls`, and the
decision logic of `proxyHandler`) are translated branch for branch.
-/

set_option maxRecDepth 8192

abbrev Str := List Char

/-- Converts a Lean string literal into the character-list representation. -/
def str (s : String) : Str := s.data

/-- ASCII lower-casing of a single character, as JS case-insensitive regex
matching folds ASCII letters. -/
def lowerAscii (c : Char) : Char :=
  if 65 ≤ c.toNat ∧ c.toNat ≤ 90 then Char.ofNat (c.toNat + 32) else c

/-- ASCII lower-casing of a string (models the lower-casing WHATWG URL
parsing applies to the host). -/
def lowerStr (s : Str) : Str := s.map lowerAscii

/-- Strips a lowercase pattern from the front of `s`, comparing
case-insensitively; returns the remainder on success. -/
def stripPrefixCI : Str → Str → Option Str
  | [], s => some s
  | _, [] => none
  | p :: ps, c :: cs => if lowerAscii c = p then stripPrefixCI ps cs else none

/-- Models `String.prototype.startsWith`. -/
def startsWithStr (p s : Str) : Bool := List.isPrefixOf p s

/-- Whitespace as recognized by `String.prototype.trim` (ASCII whitespace,
NBSP and BOM; the exotic Unicode space separators do not occur in
manifests). -/
def isJsSpace (c : Char) : Bool :=
  decide (c.toNat = 32 ∨ c.toNat = 9 ∨ c.toNat = 10 ∨ c.toNat = 11 ∨
    c.toNat = 12 ∨ c.toNat = 13 ∨ c.toNat = 160 ∨ c.toNat = 65279)

/-- Models the test `line.trim() === ""`: true iff every character is
whitespace. -/
def jsTrimEmpty (l : Str) : Bool := l.all isJsSpace

/-- UTF-8 encoding of one character (code point to byte list). -/
def charUtf8 (c : Char) : List Nat :=
  let n := c.toNat
  if n < 128 then [n]
  else if n < 2048 then [192 + n / 64, 128 + n % 64]
  else if n < 65536 then [224 + n / 4096, 128 + n / 64 % 64, 128 + n % 64]
  else [240 + n / 262144, 128 + n / 4096 % 64, 128 + n / 64 % 64, 128 + n % 64]

/-- UTF-8 encoding of a string. -/
def strUtf8 (s : Str) : List Nat := s.flatMap charUtf8

/-- Uppercase hexadecimal digit, as produced by `encodeURIComponent`. -/
def hexDigitChar (n : Nat) : Char :=
  if n < 10 then Char.ofNat (48 + n) else Char.ofNat (55 + n)

/-- Bytes that `encodeURIComponent` leaves unescaped:
`A-Z a-z 0-9 - _ . ! ~ * ' ( )`. -/
def unreservedByte (b : Nat) : Bool :=
  decide ((48 ≤ b ∧ b ≤ 57) ∨ (65 ≤ b ∧ b ≤ 90) ∨ (97 ≤ b ∧ b ≤ 122) ∨
    b = 45 ∨ b = 95 ∨ b = 46 ∨ b = 33 ∨ b = 126 ∨ b = 42 ∨ b = 39 ∨
    b = 40 ∨ b = 41)

/-- Percent-encoding of one UTF-8 byte. -/
def encByte (b : Nat) : List Char :=
  if unreservedByte b then [Char.ofNat b]
  else ['%', hexDigitChar (b / 16), hexDigitChar (b % 16)]

/-- Models the JS builtin `encodeURIComponent`: every UTF-8 byte outside the
unreserved set is written as an uppercase `%XX` escape. -/
def encodeURIComponent (s : Str) : Str := (strUtf8 s).flatMap encByte

/-- Value of a hexadecimal digit given as a byte, or `none`. -/
def hexVal (b : Nat) : Option Nat :=
  if 48 ≤ b ∧ b ≤ 57 then some (b - 48)
  else if 65 ≤ b ∧ b ≤ 70 then some (b - 55)
  else if 97 ≤ b ∧ b ≤ 102 then some (b - 87)
  else none

/-- Replaces every `%XX` escape in a byte sequence by the escaped byte;
`none` models the `URIError` thrown on a malformed escape. -/
def percentDecodeBytes : List Nat → Option (List Nat)
  | [] => some []
  | b :: rest =>
    if b = 37 then
      match rest with
      | h1 :: h2 :: rest2 =>
        match hexVal h1, hexVal h2 with
        | some x, some y => (percentDecodeBytes rest2).map (fun l => (16 * x + y) :: l)
        | _, _ => none
      | _ => none
    else (percentDecodeBytes rest).map (fun l => b :: l)

/-- UTF-8 continuation byte test. -/
def contByte (b : Nat) : Bool := decide (128 ≤ b ∧ b < 192)

/-- Strict UTF-8 decoding of a byte sequence (rejects truncated, overlong
and surrogate encodings, as `decodeURIComponent` does). -/
def utf8Decode : List Nat → Option Str
  | [] => some []
  | b :: rest =>
    if b < 128 then (utf8Decode rest).map (fun s => Char.ofNat b :: s)
    else if b < 192 then none
    else if b < 224 then
      match rest with
      | b2 :: rest2 =>
        if contByte b2 then
          let n := (b - 192) * 64 + (b2 - 128)
          if 128 ≤ n then (utf8Decode rest2).map (fun s => Char.ofNat n :: s)
          else none
        else none
      | [] => none
    else if b < 240 then
      match rest with
      | b2 :: b3 :: rest2 =>
        if contByte b2 && contByte b3 then
          let n := (b - 224) * 4096 + (b2 - 128) * 64 + (b3 - 128)
          if 2048 ≤ n ∧ (n < 55296 ∨ 57344 ≤ n) then
            (utf8Decode rest2).map (fun s => Char.ofNat n :: s)
          else none
        else none
      | _ => none
    else if b < 248 then
      match rest with
      | b2 :: b3 :: b4 :: rest2 =>
        if contByte b2 && contByte b3 && contByte b4 then
          let n := (b - 240) * 262144 + (b2 - 128) * 4096 +
            (b3 - 128) * 64 + (b4 - 128)
          if 65536 ≤ n ∧ n < 1114112 then
            (utf8Decode rest2).map (fun s => Char.ofNat n :: s)
          else none
        else none
      | _ => none
    else none

/-- Models the JS builtin `decodeURIComponent`; `none` models a thrown
`URIError`. -/
def jsDecodeURIComponent (s : Str) : Option Str :=
  (percentDecodeBytes (strUtf8 s)).bind utf8Decode

/-- The fields of a parsed WHATWG `URL` object used by the source:
`protocol` (with trailing colon), `host`, `pathname`. -/
structure URLParts where
  protocol : Str
  host : Str
  pathname : Str
deriving DecidableEq

/-- Characters that terminate the host portion of an http(s) URL. -/
def hostChar (c : Char) : Bool := decide (c ≠ '/' ∧ c ≠ '?' ∧ c ≠ '#')

/-- Characters that may occur in the pathname (before query or fragment). -/
def pathChar (c : Char) : Bool := decide (c ≠ '?' ∧ c ≠ '#')

/-- Splits scheme-less remainder into host and pathname; an empty host is a
parse failure, an empty path becomes `/`, the host is lower-cased. -/
def parseAfterScheme (proto rest : Str) : Option URLParts :=
  let host := rest.takeWhile hostChar
  let tail := rest.dropWhile hostChar
  if host = [] then none
  else
    let path := tail.takeWhile pathChar
    some ⟨proto, lowerStr host, if path = [] then str "/" else path⟩

/-- Models `new URL(s)` for absolute http(s) URLs: `none` models the thrown
`TypeError` on inputs that are not absolute http(s) URLs.  (Userinfo,
percent-normalization and non-http schemes are outside the model's scope;
the repository only constructs http(s) base URLs.) -/
def parseURL (s : Str) : Option URLParts :=
  match stripPrefixCI (str "http://") s with
  | some rest => parseAfterScheme (str "http:") rest
  | none =>
    match stripPrefixCI (str "https://") s with
    | some rest => parseAfterScheme (str "https:") rest
    | none => none

/-- Models `p.replace(/\/[^/]*$/, "/")`: drops everything after the last
slash; a string without a slash is returned unchanged (no regex match). -/
def dirnamePath (p : Str) : Str :=
  let r := (p.reverse.dropWhile (fun c => decide (c ≠ '/'))).reverse
  if r = [] then p else r

/-- The base string the rewriter builds once per manifest:
`protocol + "//" + host + pathname-with-final-segment-removed`. -/
def basePath (u : URLParts) : Str :=
  u.protocol ++ str "//" ++ u.host ++ dirnamePath u.pathname

/-- Models the regex test `/^https?:\/\//` (case-sensitive, as in the
source). -/
def absMatch (l : Str) : Bool :=
  startsWithStr (str "http://") l || startsWithStr (str "https://") l

/-- Models `new URL(rel, base).href` for the reference shapes occurring in
HLS manifests: absolute http(s) references pass through, root-relative
references are joined to the scheme and host, plain relative references are
joined to the base with its final segment removed.  (WHATWG
percent-normalization and dot-segment removal are outside the scope; the
repository resolves plain file names against a base ending in `/`.) -/
def urlResolve (rel base : Str) : Str :=
  if absMatch rel then rel
  else if startsWithStr (str "/") rel then
    match parseURL base with
    | some u => u.protocol ++ str "//" ++ u.host ++ rel
    | none => rel
  else dirnamePath base ++ rel

/-- The extension alternatives of the relative-line regex
`^[^\/]+\.(m3u8|ts|vtt|srt|ass|mp4|m4v)` (case-sensitive, no end anchor). -/
def relExts : List Str :=
  [str "m3u8", str "ts", str "vtt", str "srt", str "ass", str "mp4", str "m4v"]

/-- True iff one of the recognized extensions starts here. -/
def hasExtAt (s : Str) : Bool := relExts.any (fun e => List.isPrefixOf e s)

/-- Scans for a dot followed by a recognized extension, stopping at the
first slash (the `[^\/]+` part may not cross a slash). -/
def relMatchGo : Str → Bool
  | [] => false
  | c :: rest =>
    if c = '/' then false
    else if c = '.' then hasExtAt rest || relMatchGo rest
    else relMatchGo rest

/-- Models the regex test `/^[^\/]+\.(m3u8|ts|vtt|srt|ass|mp4|m4v)/`: at
least one non-slash character, then a dot and a recognized extension. -/
def relMatch : Str → Bool
  | [] => false
  | c :: rest => decide (c ≠ '/') && relMatchGo rest

/-- Characters of a plain relative file name as it occurs in HLS manifests
(letters, digits, `-`, `_`, `.`, `~`): for such names WHATWG URL resolution
against a directory base is plain concatenation, with no percent-escaping
or scheme detection. -/
def filenameSafeChar (c : Char) : Bool :=
  decide ((48 ≤ c.toNat ∧ c.toNat ≤ 57) ∨ (65 ≤ c.toNat ∧ c.toNat ≤ 90) ∨
    (97 ≤ c.toNat ∧ c.toNat ≤ 122) ∨ c.toNat = 45 ∨ c.toNat = 95 ∨
    c.toNat = 46 ∨ c.toNat = 126)

/-- Remainder after the first occurrence of `pat`, or `none`
(used to model the regex capture in `line.match(/URI="([^"]+)"/)`). -/
def afterFirst (pat : Str) : Str → Option Str
  | [] => if pat = [] then some [] else none
  | c :: rest =>
    if List.isPrefixOf pat (c :: rest) then some ((c :: rest).drop pat.length)
    else afterFirst pat rest

/-- Characters before the next double quote, or `none` when there is no
closing quote. -/
def takeUntilQuote : Str → Option Str
  | [] => none
  | c :: rest =>
    if c = '"' then some [] else (takeUntilQuote rest).map (fun t => c :: t)

/-- Models the capture group of `line.match(/URI="([^"]+)"/)`: the nonempty
text between `URI="` and the next quote; `none` models the null match whose
`[1]` access would throw. -/
def extractUriAttr (l : Str) : Option Str :=
  match afterFirst (str "URI=\"") l with
  | none => none
  | some r =>
    match takeUntilQuote r with
    | none => none
    | some u => if u = [] then none else some u

/-- Models `s.replace(pat, rep)` with a string pattern: replaces the first
occurrence of `pat` only. -/
def replaceFirst (pat rep : Str) : Str → Str
  | [] => if pat = [] then rep else []
  | c :: rest =>
    if List.isPrefixOf pat (c :: rest) then rep ++ (c :: rest).drop pat.length
    else c :: replaceFirst pat rep rest

/-- A proxy-routed reference, as built by the template literal
`/proxy?url=${encodeURIComponent(u)}`. -/
def proxyRef (u : Str) : Str := str "/proxy?url=" ++ encodeURIComponent u

/-- One iteration of the `map` in `rewriteHlsUrls`, branch for branch.
The `#EXT-X-MAP:URI=` branch is unreachable: any line starting with `#`
already returned in the first branch.  In that dead branch a null regex
match would throw in JS; the model returns the line (the difference is
unobservable since the branch cannot be entered). -/
def rewriteLine (bp : Str) (line : Str) : Str :=
  if startsWithStr (str "#") line || jsTrimEmpty line then line
  else if startsWithStr (str "#EXT-X-MAP:URI=") line then
    match extractUriAttr line with
    | some uri => replaceFirst uri (proxyRef (urlResolve uri bp)) line
    | none => line
  else if absMatch line then proxyRef line
  else if relMatch line then proxyRef (urlResolve line bp)
  else line

/-- Models `content.split("\n")` (keeps empty pieces, including a trailing
one). -/
def splitNl : Str → List Str
  | [] => [[]]
  | c :: rest =>
    if c = '\n' then [] :: splitNl rest
    else
      match splitNl rest with
      | [] => [[c]]
      | l :: ls => (c :: l) :: ls

/-- Models `lines.join("\n")`. -/
def joinNl : List Str → Str
  | [] => []
  | [l] => l
  | l :: ls => l ++ '\n' :: joinNl ls

/-- The source function `rewriteHlsUrls(content, baseUrl)`: parse the base
URL, derive the base path, rewrite each line; the `catch` block returns the
original content when URL parsing fails. -/
def rewriteHlsUrls (content baseUrl : Str) : Str :=
  match parseURL baseUrl with
  | none => content
  | some u => joinNl ((splitNl content).map (rewriteLine (basePath u)))

/-- Response headers, as the lower-cased name-to-value mapping axios
exposes. -/
abbrev Headers := List (Str × Str)

/-- Header lookup (models `headers["content-type"]`). -/
def getHeader (hs : Headers) (k : Str) : Option Str :=
  match hs.find? (fun p => p.fst == k) with
  | some p => some p.snd
  | none => none

/-- True iff extension `e` (given lowercase) matches here case-insensitively
and is followed by end of string or `?` (the `($|\?)` anchor with the `i`
flag). -/
def extMatchAt (e : Str) (s : Str) : Bool :=
  match stripPrefixCI e s with
  | some [] => true
  | some (c :: _) => decide (c = '?')
  | none => false

/-- Models the regex tests of the form `/\.(e1|e2)($|\?)/i`: somewhere in
the string a dot, an alternative, then end or `?`. -/
def dotExtMatch (es : List Str) : Str → Bool
  | [] => false
  | c :: rest =>
    if c = '.' then (es.any (fun e => extMatchAt e rest)) || dotExtMatch es rest
    else dotExtMatch es rest

/-- The URL-extension fallback chain of `getContentType` (taken when the
Content-Type header is absent or empty). -/
def getContentTypeUrlFallback (url : Str) : Str :=
  if dotExtMatch [str "m3u8"] url then str "application/vnd.apple.mpegurl"
  else if dotExtMatch [str "ts", str "m2ts"] url then str "video/mp2t"
  else if dotExtMatch [str "vtt"] url then str "text/vtt"
  else if dotExtMatch [str "srt"] url then str "text/plain"
  else if dotExtMatch [str "ass", str "ssa"] url then str "text/x-ass"
  else if dotExtMatch [str "mp4", str "m4v"] url then str "video/mp4"
  else str "application/octet-stream"

/-- The source function `getContentType(url, headers)`:
`headers["content-type"]?.split(";")[0]` is returned when truthy, else the
URL-extension chain decides. -/
def getContentType (url : Str) (headers : Headers) : Str :=
  match getHeader headers (str "content-type") with
  | some v =>
    let ct := v.takeWhile (fun c => decide (c ≠ ';'))
    if ct = [] then getContentTypeUrlFallback url else ct
  | none => getContentTypeUrlFallback url

/-- Models `String.prototype.includes`: true iff `pat` occurs somewhere in
the string. -/
def strIncludes (pat : Str) : Str → Bool
  | [] => List.isPrefixOf pat []
  | c :: rest => List.isPrefixOf pat (c :: rest) || strIncludes pat rest

/-- The subtitle test of `proxyHandler`: `/\.(vtt|srt|ass|ssa)($|\?)/i`. -/
def isSubtitle (url : Str) : Bool :=
  dotExtMatch [str "vtt", str "srt", str "ass", str "ssa"] url

/-- The HLS test of `proxyHandler`: `/\.(m3u8|ts)($|\?)/i`. -/
def isHls (url : Str) : Bool := dotExtMatch [str "m3u8", str "ts"] url

/-- How the upstream body is transferred: piped stream, buffered text, or
buffered arraybuffer. -/
inductive TransferMode where
  | streamPipe
  | bufferedText
  | bufferedArraybuffer
deriving DecidableEq

/-- The pre-fetch decisions of `proxyHandler`: transfer mode
(`responseType`), `Accept` header and timeout, all chosen from the URL
before the upstream request is issued. -/
structure FetchPlan where
  mode : TransferMode
  accept : Str
  timeoutMs : Nat
deriving DecidableEq

/-- Subtitles are fetched with `responseType: "stream"` and piped; all other
requests use `axios.get` with `responseType: isHls ? "text" : "arraybuffer"`. -/
def fetchPlan (url : Str) : FetchPlan :=
  if isSubtitle url then ⟨TransferMode.streamPipe, str "text/vtt, */*", 10000⟩
  else if isHls url then ⟨TransferMode.bufferedText, str "*/*", 15000⟩
  else ⟨TransferMode.bufferedArraybuffer, str "*/*", 15000⟩

/-- The response `proxyHandler` produces on a successful upstream fetch. -/
inductive SuccessResponse where
  | subtitlePipe (contentType cacheControl : Str)
  | manifest (contentType : Str) (body : Str)
  | passthrough (contentType cacheControl : Str) (body : Str)
deriving DecidableEq

/-- The success path of `proxyHandler` after the upstream response arrived:
subtitle URLs are piped with `max-age=3600`; a content type containing
`mpegurl` goes through the rewriter; everything else is sent verbatim with
`no-cache` for HLS URLs and `max-age=86400` otherwise. -/
def handleSuccess (url : Str) (respHeaders : Headers) (data : Str) : SuccessResponse :=
  if isSubtitle url then
    SuccessResponse.subtitlePipe (getContentType url respHeaders)
      (str "public, max-age=3600")
  else
    let contentType := getContentType url respHeaders
    if strIncludes (str "mpegurl") contentType then
      SuccessResponse.manifest contentType (rewriteHlsUrls data url)
    else
      SuccessResponse.passthrough contentType
        (if isHls url then str "no-cache" else str "public, max-age=86400") data

/-- An upstream response attached to an axios error. -/
structure UpstreamResp where
  status : Nat
  headers : Headers
  body : Str
deriving DecidableEq

/-- The fields of an axios error the catch block reads: the optional
attached response, the message, and the optional error code. -/
structure UpstreamErrorInfo where
  response : Option UpstreamResp
  message : Str
  code : Option Str
deriving DecidableEq

/-- The response `proxyHandler` produces on a failed upstream fetch. -/
inductive ErrorResponse where
  | relay (status : Nat) (headers : Headers) (body : Str)
  | diagnostic (status : Nat) (error message : Str) (code : Option Str)
deriving DecidableEq

/-- Models the spread `...(err.code && { code: err.code })`: the code field
is included only when truthy (present and nonempty). -/
def payloadCode (c : Option Str) : Option Str :=
  match c with
  | some s => if s = [] then none else some s
  | none => none

/-- The catch block of `proxyHandler`: with an attached upstream response,
relay its status, headers and body; otherwise a 500 JSON diagnostic with
the error message and, when truthy, the error code. -/
def handleError (e : UpstreamErrorInfo) : ErrorResponse :=
  match e.response with
  | some r => ErrorResponse.relay r.status r.headers r.body
  | none =>
    ErrorResponse.diagnostic 500 (str "Proxy error") e.message (payloadCode e.code)

/-- Outcome of the validation phase of `proxyHandler` before any upstream
fetch. -/
inductive ValidationOutcome where
  | decodeError
  | missingParam
  | invalidFormat
  | proceed (url : Str)
deriving DecidableEq

/-- Models the implicit ToString coercion `decodeURIComponent` applies to
its argument: an absent query parameter (`undefined`) becomes the string
`undefined`. -/
def jsStringCoerce (q : Option Str) : Str :=
  match q with
  | none => str "undefined"
  | some s => s

/-- The validation phase of `proxyHandler`:
`const url = decodeURIComponent(req.query.url)`, then the falsiness check
(400 Missing URL parameter), then the scheme check (400 Invalid URL
format); a decode error propagates to the catch-all. -/
def validateRequest (q : Option Str) : ValidationOutcome :=
  match jsDecodeURIComponent (jsStringCoerce q) with
  | none => ValidationOutcome.decodeError
  | some url =>
    if url = [] then ValidationOutcome.missingParam
    else if absMatch url then ValidationOutcome.proceed url
    else ValidationOutcome.invalidFormat

/-! ### Helper lemmas about line splitting and joining -/

lemma splitNl_ne_nil (s : Str) : splitNl s ≠ [] := by
  induction s with
  | nil => simp [splitNl]
  | cons c rest ih =>
    simp only [splitNl]
    split
    · simp
    · rcases h : splitNl rest with _ | ⟨l, ls⟩ <;> simp

lemma nl_not_mem_splitNl {s l : Str} (h : l ∈ splitNl s) : '\n' ∉ l := by
  induction s generalizing l with
  | nil =>
    simp only [splitNl, List.mem_singleton] at h
    subst h; simp
  | cons c rest ih =>
    simp only [splitNl] at h
    by_cases hc : c = '\n'
    · rw [if_pos hc] at h
      rcases List.mem_cons.mp h with h1 | h2
      · subst h1; simp
      · exact ih h2
    · rw [if_neg hc] at h
      rcases hsp : splitNl rest with _ | ⟨l0, ls⟩
      · exact absurd hsp (splitNl_ne_nil rest)
      · rw [hsp] at h
        rcases List.mem_cons.mp h with h1 | h2
        · subst h1
          intro hmem
          rcases List.mem_cons.mp hmem with h3 | h4
          · exact hc h3.symm
          · exact ih (hsp ▸ List.mem_cons_self l0 ls) h4
        · exact ih (hsp ▸ List.mem_cons_of_mem l0 h2)

lemma splitNl_eq_single {l : Str} (h : '\n' ∉ l) : splitNl l = [l] := by
  induction l with
  | nil => rfl
  | cons c rest ih =>
    have hc : c ≠ '\n' := fun e => h (e ▸ List.mem_cons_self c rest)
    have hrest : '\n' ∉ rest := fun hm => h (List.mem_cons_of_mem c hm)
    simp only [splitNl, if_neg hc, ih hrest]

lemma splitNl_append {l s : Str} (h : '\n' ∉ l) :
    splitNl (l ++ '\n' :: s) = l :: splitNl s := by
  induction l with
  | nil => simp [splitNl]
  | cons c rest ih =>
    have hc : c ≠ '\n' := fun e => h (e ▸ List.mem_cons_self c rest)
    have hrest : '\n' ∉ rest := fun hm => h (List.mem_cons_of_mem c hm)
    simp only [List.cons_append, splitNl, if_neg hc, List.append_eq]
    rw [ih hrest]

lemma splitNl_joinNl {ls : List Str} (hne : ls ≠ [])
    (h : ∀ l ∈ ls, '\n' ∉ l) : splitNl (joinNl ls) = ls := by
  induction ls with
  | nil => exact absurd rfl hne
  | cons l ls ih =>
    cases ls with
    | nil => simp [joinNl, splitNl_eq_single (h l (List.mem_cons_self l []))]
    | cons l2 ls2 =>
      have h1 : '\n' ∉ l := h l (List.mem_cons_self l (l2 :: ls2))
      have h2 : ∀ x ∈ l2 :: ls2, '\n' ∉ x :=
        fun x hx => h x (List.mem_cons_of_mem l hx)
      have hjoin : joinNl (l :: l2 :: ls2) = l ++ '\n' :: joinNl (l2 :: ls2) := rfl
      rw [hjoin, splitNl_append h1, ih (by simp) h2]

/-! ### Helper lemmas: the rewriter emits no newline inside a line -/

lemma mem_charUtf8_lt {c : Char} {b : Nat} (h : b ∈ charUtf8 c) : b < 256 := by
  have hv : c.toNat < 55296 ∨ 57344 ≤ c.toNat ∧ c.toNat < 1114112 := c.valid
  have hv2 : c.toNat < 1114112 := by rcases hv with h1 | h1 <;> omega
  simp only [charUtf8] at h
  by_cases h1 : c.toNat < 128
  · simp [h1] at h; omega
  · by_cases h2 : c.toNat < 2048
    · simp [h1, h2] at h
      rcases h with h | h <;> omega
    · by_cases h3 : c.toNat < 65536
      · simp [h1, h2, h3] at h
        rcases h with h | h | h <;> omega
      · simp [h1, h2, h3] at h
        rcases h with h | h | h | h <;> omega

lemma mem_strUtf8_lt {s : Str} {b : Nat} (h : b ∈ strUtf8 s) : b < 256 := by
  simp only [strUtf8, List.mem_flatMap] at h
  obtain ⟨c, _, hc⟩ := h
  exact mem_charUtf8_lt hc

lemma encByte_no_nl : ∀ b, b < 256 → '\n' ∉ encByte b := by decide

lemma nl_not_mem_encodeURIComponent (s : Str) : '\n' ∉ encodeURIComponent s := by
  intro h
  simp only [encodeURIComponent, List.mem_flatMap] at h
  obtain ⟨b, hb, hmem⟩ := h
  exact encByte_no_nl b (mem_strUtf8_lt hb) hmem

lemma nl_not_mem_proxyRef (u : Str) : '\n' ∉ proxyRef u := by
  intro h
  simp only [proxyRef, List.mem_append] at h
  rcases h with h | h
  · revert h; decide
  · exact nl_not_mem_encodeURIComponent u h

lemma mem_replaceFirst {pat rep s : Str} {c : Char}
    (h : c ∈ replaceFirst pat rep s) : c ∈ s ∨ c ∈ rep := by
  induction s with
  | nil =>
    simp only [replaceFirst] at h
    split at h
    · exact Or.inr h
    · simp at h
  | cons a rest ih =>
    simp only [replaceFirst] at h
    split at h
    · rcases List.mem_append.mp h with h1 | h2
      · exact Or.inr h1
      · exact Or.inl (List.mem_of_mem_drop h2)
    · rcases List.mem_cons.mp h with h1 | h2
      · exact Or.inl (h1 ▸ List.mem_cons_self a rest)
      · rcases ih h2 with h3 | h4
        · exact Or.inl (List.mem_cons_of_mem a h3)
        · exact Or.inr h4

lemma rewriteLine_no_nl {bp l : Str} (h : '\n' ∉ l) : '\n' ∉ rewriteLine bp l := by
  simp only [rewriteLine]
  split
  · exact h
  · split
    · rcases hx : extractUriAttr l with _ | uri <;> simp only [hx]
      · exact h
      · intro hmem
        rcases mem_replaceFirst hmem with h1 | h2
        · exact h h1
        · exact nl_not_mem_proxyRef _ h2
    · split
      · exact nl_not_mem_proxyRef _
      · split
        · exact nl_not_mem_proxyRef _
        · exact h

lemma splitNl_rewrite {content base : Str} {u : URLParts}
    (h : parseURL base = some u) :
    splitNl (rewriteHlsUrls content base) =
      (splitNl content).map (rewriteLine (basePath u)) := by
  have hrw : rewriteHlsUrls content base =
      joinNl ((splitNl content).map (rewriteLine (basePath u))) := by
    simp [rewriteHlsUrls, h]
  rw [hrw]
  apply splitNl_joinNl
  · intro hmap
    exact splitNl_ne_nil content (List.map_eq_nil_iff.mp hmap)
  · intro l hl
    rw [List.mem_map] at hl
    obtain ⟨l0, hl0, rfl⟩ := hl
    exact rewriteLine_no_nl (nl_not_mem_splitNl hl0)

/-! ### Helper lemmas about URL parsing and the base path -/

lemma dropWhile_head_false {p : Char → Bool} {l t : Str} {c : Char}
    (h : l.dropWhile p = c :: t) : p c = false := by
  induction l with
  | nil => simp [List.dropWhile] at h
  | cons a rest ih =>
    rw [List.dropWhile_cons] at h
    by_cases hp : p a
    · rw [if_pos hp] at h; exact ih h
    · rw [if_neg hp] at h
      injection h with h1 h2
      subst h1
      simpa using hp

lemma dropWhile_slash_mem {l : Str} (h : '/' ∈ l) :
    ∃ t, l.dropWhile (fun c => decide (c ≠ '/')) = '/' :: t := by
  induction l with
  | nil => simp at h
  | cons c rest ih =>
    by_cases hc : c = '/'
    · subst hc
      exact ⟨rest, by simp [List.dropWhile_cons]⟩
    · have hmem : '/' ∈ rest := by
        rcases List.mem_cons.mp h with h1 | h1
        · exact absurd h1.symm hc
        · exact h1
      obtain ⟨t, ht⟩ := ih hmem
      refine ⟨t, ?_⟩
      simp only [List.dropWhile_cons]
      rw [if_pos (show (decide (c ≠ '/') = true) by simp [hc])]
      exact ht

lemma dirnamePath_ends {p : Str} (h : '/' ∈ p) :
    ∃ t, dirnamePath p = t ++ ['/'] := by
  obtain ⟨t, ht⟩ := dropWhile_slash_mem (l := p.reverse) (by simpa using h)
  refine ⟨t.reverse, ?_⟩
  unfold dirnamePath
  rw [ht]
  simp

lemma dirnamePath_ends_slash {t : Str} : dirnamePath (t ++ ['/']) = t ++ ['/'] := by
  unfold dirnamePath
  rw [List.reverse_append]
  simp [List.dropWhile_cons]

lemma pathname_head {rest : Str}
    (h : (rest.dropWhile hostChar).takeWhile pathChar ≠ []) :
    ∃ t, (rest.dropWhile hostChar).takeWhile pathChar = '/' :: t := by
  cases htail : rest.dropWhile hostChar with
  | nil =>
    rw [htail] at h
    simp at h
  | cons c t2 =>
    have hc : hostChar c = false := dropWhile_head_false htail
    rw [htail] at h
    rw [List.takeWhile_cons] at h ⊢
    by_cases hpc : pathChar c = true
    · rw [if_pos hpc] at h ⊢
      have hcs : c = '/' := by
        simp only [hostChar, decide_eq_false_iff_not, not_and_or, not_not] at hc
        simp only [pathChar, decide_eq_true_eq] at hpc
        tauto
      exact ⟨_, by rw [hcs]⟩
    · rw [if_neg hpc] at h
      exact absurd rfl h

lemma parseAfterScheme_pathname {proto rest : Str} {u : URLParts}
    (h : parseAfterScheme proto rest = some u) : ∃ t, u.pathname = '/' :: t := by
  simp only [parseAfterScheme] at h
  by_cases hh : rest.takeWhile hostChar = []
  · rw [if_pos hh] at h
    cases h
  · rw [if_neg hh] at h
    injection h with h
    subst h
    by_cases hp : (rest.dropWhile hostChar).takeWhile pathChar = []
    · show ∃ t, (if (rest.dropWhile hostChar).takeWhile pathChar = []
        then str "/" else (rest.dropWhile hostChar).takeWhile pathChar) = '/' :: t
      rw [if_pos hp]
      exact ⟨[], rfl⟩
    · show ∃ t, (if (rest.dropWhile hostChar).takeWhile pathChar = []
        then str "/" else (rest.dropWhile hostChar).takeWhile pathChar) = '/' :: t
      rw [if_neg hp]
      exact pathname_head hp

lemma parseURL_pathname {s : Str} {u : URLParts} (h : parseURL s = some u) :
    ∃ t, u.pathname = '/' :: t := by
  unfold parseURL at h
  rcases h1 : stripPrefixCI (str "http://") s with _ | r1
  · simp only [h1] at h
    rcases h2 : stripPrefixCI (str "https://") s with _ | r2
    · simp only [h2] at h
      cases h
    · simp only [h2] at h
      exact parseAfterScheme_pathname h
  · simp only [h1] at h
    exact parseAfterScheme_pathname h

lemma basePath_ends {u : URLParts} (h : ∃ t, u.pathname = '/' :: t) :
    ∃ t2, basePath u = t2 ++ ['/'] := by
  obtain ⟨t, ht⟩ := h
  have hmem : '/' ∈ u.pathname := by rw [ht]; exact List.mem_cons_self _ _
  obtain ⟨t2, ht2⟩ := dirnamePath_ends hmem
  exact ⟨u.protocol ++ str "//" ++ u.host ++ t2,
    by simp [basePath, ht2, List.append_assoc]⟩

lemma dirnamePath_basePath {u : URLParts} (h : ∃ t, u.pathname = '/' :: t) :
    dirnamePath (basePath u) = basePath u := by
  obtain ⟨t2, ht2⟩ := basePath_ends h
  rw [ht2, dirnamePath_ends_slash]

/-! ### Helper lemmas about line classification guards -/

lemma startsWith_cons_ne {a c : Char} {p s : Str} (h : a ≠ c) :
    startsWithStr (a :: p) (c :: s) = false := by
  have hb : (a == c) = false := beq_eq_false_iff_ne.mpr h
  simp [startsWithStr, List.isPrefixOf, hb]

lemma str_hash_eq : str "#" = ['#'] := rfl

lemma str_slash_eq : str "/" = ['/'] := rfl

lemma str_extmap_eq : str "#EXT-X-MAP:URI=" = '#' :: str "EXT-X-MAP:URI=" := rfl

lemma absMatch_head {l : Str} (h : absMatch l = true) : ∃ t, l = 'h' :: t := by
  simp only [absMatch, startsWithStr, Bool.or_eq_true] at h
  rcases h with h | h
  · obtain ⟨t, ht⟩ := List.isPrefixOf_iff_prefix.mp h
    exact ⟨str "ttp://" ++ t, by rw [← ht]; rfl⟩
  · obtain ⟨t, ht⟩ := List.isPrefixOf_iff_prefix.mp h
    exact ⟨str "ttps://" ++ t, by rw [← ht]; rfl⟩

lemma absMatch_colon {l : Str} (h : absMatch l = true) : ':' ∈ l := by
  simp only [absMatch, startsWithStr, Bool.or_eq_true] at h
  rcases h with h | h
  · obtain ⟨t, ht⟩ := List.isPrefixOf_iff_prefix.mp h
    rw [← ht]
    exact List.mem_append_left _ (by decide)
  · obtain ⟨t, ht⟩ := List.isPrefixOf_iff_prefix.mp h
    rw [← ht]
    exact List.mem_append_left _ (by decide)

lemma jsTrimEmpty_cons {c : Char} {t : Str} (h : isJsSpace c = false) :
    jsTrimEmpty (c :: t) = false := by
  simp [jsTrimEmpty, List.all_cons, h]

/-! ### Claim theorems -/

/-- C6: for every manifest text and every base URL string that fails URL
parsing, `rewriteHlsUrls` returns the input manifest text unchanged; the
embedded function is total, modelling that the catch block lets no
exception escape the rewrite boundary. -/
theorem c6_rewrite_fail_safe (content base : Str) (h : parseURL base = none) :
    rewriteHlsUrls content base = content := by
  simp [rewriteHlsUrls, h]

/-- Witness for C6 at the malformed base URL `notaurl`. -/
theorem c6_rewrite_fail_safe_witness :
    rewriteHlsUrls (str "#EXTM3U\nseg.ts") (str "notaurl") = str "#EXTM3U\nseg.ts" :=
  c6_rewrite_fail_safe (str "#EXTM3U\nseg.ts") (str "notaurl") (by decide)

/-- C7: for every manifest and valid base URL, the rewriter keeps the number
of lines, and every comment line (beginning with `#`) and every blank line
appears byte-identical at the same position of the output. -/
theorem c7_comment_blank_lines_preserved (content base : Str) (u : URLParts)
    (h : parseURL base = some u) :
    (splitNl (rewriteHlsUrls content base)).length = (splitNl content).length ∧
    ∀ (i : Nat) (l : Str), (splitNl content)[i]? = some l →
      (startsWithStr (str "#") l = true ∨ jsTrimEmpty l = true) →
      (splitNl (rewriteHlsUrls content base))[i]? = some l := by
  rw [splitNl_rewrite h]
  constructor
  · simp
  · intro i l hl hline
    rw [List.getElem?_map, hl]
    have hpass : rewriteLine (basePath u) l = l := by
      rcases hline with h1 | h1
      · simp [rewriteLine, h1]
      · simp [rewriteLine, h1]
    simp [hpass]

/-- Witness for C7 at a two-line manifest and a valid base URL. -/
theorem c7_comment_blank_lines_preserved_witness :
    (splitNl (rewriteHlsUrls (str "#EXTM3U\nseg_1.ts") (str "https://h/p/m.m3u8"))).length =
      (splitNl (str "#EXTM3U\nseg_1.ts")).length :=
  (c7_comment_blank_lines_preserved (str "#EXTM3U\nseg_1.ts")
    (str "https://h/p/m.m3u8") ⟨str "https:", str "h", str "/p/m.m3u8"⟩ (by decide)).1

/-- C1 (code bug): a manifest line carrying the init-segment tag
`#EXT-X-MAP:URI="..."` is not rewritten at all: the leading-`#` passthrough
guard precedes the `#EXT-X-MAP` branch in `rewriteHlsUrls`, so that branch
is unreachable and the quoted URI reaches the client unproxied, while the
sibling segment line of the same manifest is rewritten as usual. -/
theorem c1_extXMap_line_not_rewritten :
    rewriteHlsUrls (str "#EXT-X-MAP:URI=\"init.mp4\"\nseg_1.ts")
        (str "https://host/path/video.m3u8") =
      str "#EXT-X-MAP:URI=\"init.mp4\"\n/proxy?url=https%3A%2F%2Fhost%2Fpath%2Fseg_1.ts" := by
  decide

/-- C2 counterexample: a subtitle URL is fetched in piped-stream mode (the
claim says buffered), and a `.ts` segment URL is fetched buffered as text
(the claim says streamed). -/
theorem c2_transfer_mode_counterexample :
    (fetchPlan (str "sub.vtt")).mode = TransferMode.streamPipe ∧
    (fetchPlan (str "seg01.ts")).mode = TransferMode.bufferedText := by decide

/-- C2 amended: the transfer mode is chosen from the URL before fetching;
subtitle URLs are fetched streamed and piped, other `.m3u8`/`.ts` URLs are
fetched buffered as text, and all remaining URLs are fetched buffered as an
arraybuffer. -/
theorem c2_transfer_mode_amended (url : Str) :
    (isSubtitle url = true → (fetchPlan url).mode = TransferMode.streamPipe) ∧
    (isSubtitle url = false → isHls url = true →
      (fetchPlan url).mode = TransferMode.bufferedText) ∧
    (isSubtitle url = false → isHls url = false →
      (fetchPlan url).mode = TransferMode.bufferedArraybuffer) := by
  refine ⟨fun h1 => ?_, fun h1 h2 => ?_, fun h1 h2 => ?_⟩
  · simp [fetchPlan, h1]
  · simp [fetchPlan, h1, h2]
  · simp [fetchPlan, h1, h2]

/-- Witness for C2 amended: a manifest URL is fetched buffered as text. -/
theorem c2_transfer_mode_amended_witness :
    (fetchPlan (str "video.m3u8")).mode = TransferMode.bufferedText :=
  (c2_transfer_mode_amended (str "video.m3u8")).2.1 (by decide) (by decide)

/-- C3 counterexample: a successfully fetched `.ts` segment (neither
manifest nor subtitle) is relayed with `Cache-Control: no-cache`, not with
`public, max-age=86400` as the claim states. -/
theorem c3_cache_control_counterexample :
    handleSuccess (str "seg01.ts") [] (str "SEGDATA") =
      SuccessResponse.passthrough (str "video/mp2t") (str "no-cache")
        (str "SEGDATA") := by decide

/-- C3 amended: every successfully fetched resource that is neither a
manifest (content type containing `mpegurl`) nor a subtitle URL is relayed
verbatim with the classified content type; the Cache-Control is `no-cache`
for `.m3u8`/`.ts` URLs and `public, max-age=86400` for all others. -/
theorem c3_passthrough_amended (url : Str) (hs : Headers) (d : Str)
    (h1 : isSubtitle url = false)
    (h2 : strIncludes (str "mpegurl") (getContentType url hs) = false) :
    handleSuccess url hs d =
      SuccessResponse.passthrough (getContentType url hs)
        (if isHls url then str "no-cache" else str "public, max-age=86400") d := by
  simp [handleSuccess, h1, h2]

/-- Witness for C3 amended at a generic binary URL. -/
theorem c3_passthrough_amended_witness :
    handleSuccess (str "file.bin") [] (str "D") =
      SuccessResponse.passthrough (getContentType (str "file.bin") [])
        (if isHls (str "file.bin") then str "no-cache"
          else str "public, max-age=86400") (str "D") :=
  c3_passthrough_amended (str "file.bin") [] (str "D") (by decide) (by decide)

/-- C8: on upstream failure with an attached response, the handler relays
that status with its headers and body; on a network or timeout error with
no response it responds 500 with the diagnostic payload carrying the error
message and, when present (truthy), the error code. -/
theorem c8_upstream_failure_relay (e : UpstreamErrorInfo) :
    (∀ r, e.response = some r →
      handleError e = ErrorResponse.relay r.status r.headers r.body) ∧
    (e.response = none →
      handleError e = ErrorResponse.diagnostic 500 (str "Proxy error")
        e.message (payloadCode e.code)) := by
  constructor
  · intro r hr
    simp [handleError, hr]
  · intro hr
    simp [handleError, hr]

/-- Witness for C8: a 410 upstream response is relayed as-is. -/
theorem c8_upstream_failure_relay_witness :
    handleError ⟨some ⟨410, [], str "gone"⟩,
        str "Request failed with status code 410", none⟩ =
      ErrorResponse.relay 410 [] (str "gone") :=
  (c8_upstream_failure_relay _).1 ⟨410, [], str "gone"⟩ rfl

/-- C10: with the `url` query parameter absent, `decodeURIComponent`
coerces `undefined` to the string `undefined`, which is truthy and fails
the scheme check, so validation ends in the Invalid-URL-format rejection
(the missing-parameter branch is not taken and no upstream fetch is
issued). -/
theorem c10_absent_url_param_rejected :
    validateRequest none = ValidationOutcome.invalidFormat := by decide

lemma safe_not_space {c : Char} (h : filenameSafeChar c = true) :
    isJsSpace c = false := by
  simp only [filenameSafeChar, decide_eq_true_eq] at h
  simp only [isJsSpace, decide_eq_false_iff_not]
  omega

/-- C4: for every manifest and valid base URL the rewriter acts on each line
independently (so no other text is altered), and a line that is an absolute
`http://` or `https://` URL is replaced by exactly `/proxy?url=` followed by
its percent-encoding. -/
theorem c4_absolute_url_line (content base l : Str) (u : URLParts)
    (hbase : parseURL base = some u) (habs : absMatch l = true) :
    splitNl (rewriteHlsUrls content base) =
      (splitNl content).map (rewriteLine (basePath u)) ∧
    rewriteLine (basePath u) l = str "/proxy?url=" ++ encodeURIComponent l := by
  refine ⟨splitNl_rewrite hbase, ?_⟩
  obtain ⟨t, rfl⟩ := absMatch_head habs
  have g1 : startsWithStr (str "#") ('h' :: t) = false := by
    rw [str_hash_eq]
    exact startsWith_cons_ne (by decide)
  have g2 : jsTrimEmpty ('h' :: t) = false := jsTrimEmpty_cons (by decide)
  have g3 : startsWithStr (str "#EXT-X-MAP:URI=") ('h' :: t) = false := by
    rw [str_extmap_eq]
    exact startsWith_cons_ne (by decide)
  simp [rewriteLine, g1, g2, g3, habs, proxyRef]

/-- Witness for C4: an absolute URL line from another CDN is rewritten to
its proxied form. -/
theorem c4_absolute_url_line_witness :
    rewriteLine (basePath ⟨str "https:", str "cdn.example", str "/a/master.m3u8"⟩)
        (str "https://other.cdn/seg.ts") =
      str "/proxy?url=" ++ encodeURIComponent (str "https://other.cdn/seg.ts") :=
  (c4_absolute_url_line (str "") (str "https://cdn.example/a/master.m3u8")
    (str "https://other.cdn/seg.ts")
    ⟨str "https:", str "cdn.example", str "/a/master.m3u8"⟩
    (by decide) (by decide)).2

/-- C5: a manifest line that is a bare relative file name with a recognized
media extension is replaced by `/proxy?url=` followed by the
percent-encoding of the base URL's scheme, host and directory path (the
original path with its final segment removed) joined with the file name:
relative references resolve as siblings of the manifest. -/
theorem c5_relative_line_resolution (base R : Str) (u : URLParts)
    (hbase : parseURL base = some u) (hrel : relMatch R = true)
    (hsafe : ∀ c ∈ R, filenameSafeChar c = true) :
    rewriteLine (basePath u) R =
      str "/proxy?url=" ++ encodeURIComponent
        (u.protocol ++ str "//" ++ u.host ++ dirnamePath u.pathname ++ R) := by
  rcases R with _ | ⟨c, rest⟩
  · simp [relMatch] at hrel
  · have hcsafe : filenameSafeChar c = true := hsafe c (List.mem_cons_self c rest)
    have hne : ∀ d : Char, filenameSafeChar d = false → c ≠ d := by
      intro d hd e
      rw [e] at hcsafe
      rw [hcsafe] at hd
      cases hd
    have g1 : startsWithStr (str "#") (c :: rest) = false := by
      rw [str_hash_eq]
      exact startsWith_cons_ne (Ne.symm (hne '#' (by decide)))
    have g2 : jsTrimEmpty (c :: rest) = false := jsTrimEmpty_cons (safe_not_space hcsafe)
    have g3 : startsWithStr (str "#EXT-X-MAP:URI=") (c :: rest) = false := by
      rw [str_extmap_eq]
      exact startsWith_cons_ne (Ne.symm (hne '#' (by decide)))
    have g4 : absMatch (c :: rest) = false := by
      rcases Bool.eq_false_or_eq_true (absMatch (c :: rest)) with h | h
      · exfalso
        have hmem := absMatch_colon h
        have := hsafe ':' hmem
        exact absurd this (by decide)
      · exact h
    have g5 : startsWithStr (str "/") (c :: rest) = false := by
      rw [str_slash_eq]
      exact startsWith_cons_ne (Ne.symm (hne '/' (by decide)))
    simp only [rewriteLine, urlResolve, g1, g2, g3, g4, g5, hrel,
      Bool.or_self, Bool.false_eq_true, if_false, eq_self_iff_true, if_true]
    rw [dirnamePath_basePath (parseURL_pathname hbase)]
    rw [proxyRef, basePath]

/-- Witness for C5: `stream_0.m3u8` against
`https://host/path/to/manifest.m3u8` resolves as a sibling. -/
theorem c5_relative_line_resolution_witness :
    rewriteLine (basePath ⟨str "https:", str "host", str "/path/to/manifest.m3u8"⟩)
        (str "stream_0.m3u8") =
      str "/proxy?url=" ++ encodeURIComponent
        (str "https:" ++ str "//" ++ str "host" ++
          dirnamePath (str "/path/to/manifest.m3u8") ++ str "stream_0.m3u8") :=
  c5_relative_line_resolution (str "https://host/path/to/manifest.m3u8")
    (str "stream_0.m3u8") ⟨str "https:", str "host", str "/path/to/manifest.m3u8"⟩
    (by decide) (by decide) (by decide)

/-- C9: `getContentType` returns the Content-Type header with any parameter
suffix stripped whenever that yields a nonempty value; with no header it
falls back to the URL-extension table (each test case-insensitive and
tolerant of a trailing query string), ending at
`application/octet-stream`. -/
theorem c9_content_type_classifier (url : Str) (hs : Headers) :
    (∀ v, getHeader hs (str "content-type") = some v →
      v.takeWhile (fun c => decide (c ≠ ';')) ≠ [] →
      getContentType url hs = v.takeWhile (fun c => decide (c ≠ ';'))) ∧
    (getHeader hs (str "content-type") = none →
      getContentType url hs = getContentTypeUrlFallback url) ∧
    (dotExtMatch [str "m3u8"] url = true →
      getContentTypeUrlFallback url = str "application/vnd.apple.mpegurl") ∧
    (dotExtMatch [str "m3u8"] url = false →
      dotExtMatch [str "ts", str "m2ts"] url = true →
      getContentTypeUrlFallback url = str "video/mp2t") ∧
    (dotExtMatch [str "m3u8"] url = false →
      dotExtMatch [str "ts", str "m2ts"] url = false →
      dotExtMatch [str "vtt"] url = true →
      getContentTypeUrlFallback url = str "text/vtt") ∧
    (dotExtMatch [str "m3u8"] url = false →
      dotExtMatch [str "ts", str "m2ts"] url = false →
      dotExtMatch [str "vtt"] url = false →
      dotExtMatch [str "srt"] url = true →
      getContentTypeUrlFallback url = str "text/plain") ∧
    (dotExtMatch [str "m3u8"] url = false →
      dotExtMatch [str "ts", str "m2ts"] url = false →
      dotExtMatch [str "vtt"] url = false →
      dotExtMatch [str "srt"] url = false →
      dotExtMatch [str "ass", str "ssa"] url = true →
      getContentTypeUrlFallback url = str "text/x-ass") ∧
    (dotExtMatch [str "m3u8"] url = false →
      dotExtMatch [str "ts", str "m2ts"] url = false →
      dotExtMatch [str "vtt"] url = false →
      dotExtMatch [str "srt"] url = false →
      dotExtMatch [str "ass", str "ssa"] url = false →
      dotExtMatch [str "mp4", str "m4v"] url = true →
      getContentTypeUrlFallback url = str "video/mp4") ∧
    (dotExtMatch [str "m3u8"] url = false →
      dotExtMatch [str "ts", str "m2ts"] url = false →
      dotExtMatch [str "vtt"] url = false →
      dotExtMatch [str "srt"] url = false →
      dotExtMatch [str "ass", str "ssa"] url = false →
      dotExtMatch [str "mp4", str "m4v"] url = false →
      getContentTypeUrlFallback url = str "application/octet-stream") := by
  refine ⟨?_, ?_, ?_, ?_, ?_, ?_, ?_, ?_, ?_⟩
  · intro v hv hne
    simp only [getContentType, hv]
    rw [if_neg hne]
  · intro hnone
    simp [getContentType, hnone]
  · intro h1
    simp [getContentTypeUrlFallback, h1]
  · intro h1 h2
    simp [getContentTypeUrlFallback, h1, h2]
  · intro h1 h2 h3
    simp [getContentTypeUrlFallback, h1, h2, h3]
  · intro h1 h2 h3 h4
    simp [getContentTypeUrlFallback, h1, h2, h3, h4]
  · intro h1 h2 h3 h4 h5
    simp [getContentTypeUrlFallback, h1, h2, h3, h4, h5]
  · intro h1 h2 h3 h4 h5 h6
    simp [getContentTypeUrlFallback, h1, h2, h3, h4, h5, h6]
  · intro h1 h2 h3 h4 h5 h6
    simp [getContentTypeUrlFallback, h1, h2, h3, h4, h5, h6]

/-- Witness for C9: with no header, `video.m3u8` classifies as the HLS
manifest MIME type. -/
theorem c9_content_type_classifier_witness :
    getContentType (str "video.m3u8") [] = str "application/vnd.apple.mpegurl" := by
  have h := c9_content_type_classifier (str "video.m3u8") []
  exact (h.2.1 (by decide)).trans (h.2.2.1 (by decide))
